import Mathlib

/-!
Verification development for the convergence engine (`src/index.js`).

The embedding below translates the JavaScript source into Lean:

* `Reply` models the structured agent response object (fields `response`,
  `continue`, `missingContext`, `confidence`).  The JS field `continue` is a
  Lean keyword, so it is named `cont` here.
* `hasConverged` and `getConvergenceScore` are direct translations of the
  exported functions at `src/index.js:136` and `src/index.js:146`.
* `TOKEN_PRICING` / `calculateTokenCost` translate `src/index.js:168-198`,
  with the JS floating-point dollar amounts represented exactly as rationals
  (every literal in the table is a finite decimal, and the claims concern
  the algebra of the formula, which the decimal literals represent exactly).
* `queryAux` models the retry loop of `queryOpenAI` (`src/index.js:64-128`),
  with the external API call abstracted as a stream of per-attempt outcomes.
* `convergeAux` / `converge` model the deliberation loop
  (`src/index.js:214-390`), with the replies of the two agents abstracted as
  streams `rA rB : Nat → Reply` indexed by the 0-based loop counter, and the
  `onIteration` callback as a function that may raise (return `Except.error`),
  mirroring that the JS code invokes the callback without a try/catch.
  Console output and token/cost bookkeeping are elided: they do not affect
  control flow, and no claim concerns the `tokens`/`estimatedCost` fields.
-/

/-- One structured agent response (the JS object validated and returned by
`queryOpenAI`).  `cont` is the JS field `continue`; `missingContext` the list
of gaps; `confidence` the self-reported integer. -/
structure Reply where
  response : String
  cont : Bool
  missingContext : List String
  confidence : Int
deriving DecidableEq, Repr

/-- `hasConverged` (src/index.js:136-138):
`!agentResponse.continue && agentResponse.missingContext.length === 0`. -/
def hasConverged (agentResponse : Reply) : Bool :=
  !agentResponse.cont && agentResponse.missingContext.length == 0

/-- `getConvergenceScore` (src/index.js:146-162).  JS mutates a local
`score`; here the two additions are the two summands.  The missing-context
branch adds `40 - Math.min(length * 10, 40)`. -/
def getConvergenceScore (agentResponse : Reply) : Int :=
  let score : Int :=
    (if !agentResponse.cont then 60 else 0) +
    (if agentResponse.missingContext.length == 0 then 40
     else 40 - min ((agentResponse.missingContext.length : Int) * 10) 40)
  max 0 score

/-- Closed form of the score: the defensive outer `Math.max(0, ·)` never
fires, because the gap component is already non-negative. -/
theorem getConvergenceScore_closed (r : Reply) :
    getConvergenceScore r =
      (if r.cont then 0 else 60) +
      (if r.missingContext.length = 0 then 40
       else 40 - min ((r.missingContext.length : Int) * 10) 40) := by
  unfold getConvergenceScore
  cases hc : r.cont <;> cases hm : r.missingContext <;>
    simp [hm] <;> omega

/-- C2: `hasConverged(r)` is true iff `getConvergenceScore(r) == 100`, and
both are equivalent to `r.continue == false` together with
`r.missingContext` empty. -/
theorem hasConverged_iff_score_100 (r : Reply) :
    (hasConverged r = true ↔ getConvergenceScore r = 100) ∧
    (hasConverged r = true ↔ (r.cont = false ∧ r.missingContext = [])) := by
  have hs := getConvergenceScore_closed r
  constructor
  · rw [hs]
    cases hc : r.cont <;> cases hm : r.missingContext <;>
      simp [hasConverged, hc, hm] <;> omega
  · cases hc : r.cont <;> cases hm : r.missingContext <;>
      simp [hasConverged, hc, hm]

/-- Witness for `hasConverged_iff_score_100`: concrete replies on both sides
of the equivalence. -/
theorem hasConverged_iff_score_100_witness :
    getConvergenceScore ⟨"done", false, [], 90⟩ = 100 ∧
    hasConverged ⟨"more", true, ["g"], 50⟩ = false :=
  ⟨(hasConverged_iff_score_100 ⟨"done", false, [], 90⟩).1.mp rfl,
   by
    have h := (hasConverged_iff_score_100 ⟨"more", true, ["g"], 50⟩).2
    by_contra hb
    rw [Bool.not_eq_false] at hb
    exact absurd (h.mp hb).1 (by simp)⟩

/-- C3: the score is the sum of a continue component (0 when continuing,
60 otherwise) and a gap component (40 with no gaps, otherwise
`max 0 (40 - 10·gaps)`), clamped to [0,100]; with `continue=true`, four or
more gaps score 0 and zero gaps score 40. -/
theorem getConvergenceScore_formula (r : Reply) :
    getConvergenceScore r =
      max 0 (min 100
        ((if r.cont then 0 else 60) +
         (if r.missingContext.isEmpty then 40
          else max 0 (40 - 10 * (r.missingContext.length : Int))))) ∧
    (r.cont = true → 4 ≤ r.missingContext.length → getConvergenceScore r = 0) ∧
    (r.cont = true → r.missingContext.length = 0 → getConvergenceScore r = 40) := by
  have hs := getConvergenceScore_closed r
  refine ⟨?_, ?_, ?_⟩
  · rw [hs]
    cases hc : r.cont <;> cases hm : r.missingContext <;> simp [hm] <;> omega
  · intro hc hlen
    rw [hs, hc]
    cases hm : r.missingContext with
    | nil => rw [hm] at hlen; simp at hlen
    | cons x xs =>
      rw [hm] at hlen
      simp only [List.length_cons] at hlen ⊢
      simp
      omega
  · intro hc hlen
    cases hm : r.missingContext with
    | nil => rw [hs, hc, hm]; simp
    | cons x xs => rw [hm] at hlen; simp at hlen

/-- Witness for `getConvergenceScore_formula`: a concrete reply with
`continue = true` and 4 gaps scores 0. -/
theorem getConvergenceScore_formula_witness :
    getConvergenceScore ⟨"t", true, ["a", "b", "c", "d"], 50⟩ = 0 :=
  ((getConvergenceScore_formula ⟨"t", true, ["a", "b", "c", "d"], 50⟩).2.1)
    rfl (by decide)

/-- Witness for `hasConverged_iff_score_100` is not needed (no Prop
hypothesis); the next definitions translate the token-pricing table
(src/index.js:168-185).  The JS dollar literals are finite decimals, so the
rational literals below denote them exactly. -/
structure Pricing where
  prompt : ℚ
  completion : ℚ
deriving DecidableEq, Repr

/-- `TOKEN_PRICING` (src/index.js:168-185). -/
def TOKEN_PRICING : List (String × Pricing) :=
  [("gpt-4o-2024-08-06", ⟨0.0025, 0.010⟩),
   ("gpt-4o", ⟨0.0025, 0.010⟩),
   ("gpt-4-turbo", ⟨0.01, 0.03⟩),
   ("gpt-4", ⟨0.03, 0.06⟩)]

/-- `calculateTokenCost` (src/index.js:195-198):
`TOKEN_PRICING[model]` with fallback `TOKEN_PRICING["gpt-4o-2024-08-06"]`, then
`(promptTokens * pricing.prompt + completionTokens * pricing.completion) / 1000000`.
The fallback entry for "gpt-4o-2024-08-06" is written out as the
literal record it holds. -/
def calculateTokenCost (promptTokens completionTokens : ℚ)
    (model : String) : ℚ :=
  let pricing := (TOKEN_PRICING.lookup model).getD ⟨0.0025, 0.010⟩
  (promptTokens * pricing.prompt + completionTokens * pricing.completion) / 1000000

/-- The fallback record used in `calculateTokenCost` is exactly the table
entry for the default model `gpt-4o-2024-08-06`. -/
theorem lookup_default_model :
    TOKEN_PRICING.lookup "gpt-4o-2024-08-06" = some ⟨0.0025, 0.010⟩ := rfl

/-- C9: the cost is `(p·promptRate + c·completionRate) / 1_000_000` with the
rates looked up from the table (falling back to the rates of the default model on
an unrecognized identifier), and it is linear in the token counts; doubling
both counts doubles the result. -/
theorem calculateTokenCost_formula (model : String) (p c : ℚ) :
    (∀ pr, TOKEN_PRICING.lookup model = some pr →
        calculateTokenCost p c model =
          (p * pr.prompt + c * pr.completion) / 1000000) ∧
    (TOKEN_PRICING.lookup model = none →
        calculateTokenCost p c model =
          calculateTokenCost p c "gpt-4o-2024-08-06") ∧
    calculateTokenCost (2 * p) (2 * c) model = 2 * calculateTokenCost p c model ∧
    (∀ p2 c2, calculateTokenCost (p + p2) (c + c2) model =
        calculateTokenCost p c model + calculateTokenCost p2 c2 model) ∧
    (∀ a : ℚ, calculateTokenCost (a * p) (a * c) model =
        a * calculateTokenCost p c model) := by
  refine ⟨?_, ?_, ?_, ?_, ?_⟩
  · intro pr hpr
    simp only [calculateTokenCost, hpr, Option.getD_some]
  · intro hnone
    simp only [calculateTokenCost, hnone, Option.getD_none, lookup_default_model,
      Option.getD_some]
  · simp only [calculateTokenCost]; ring
  · intro p2 c2
    simp only [calculateTokenCost]; ring
  · intro a
    simp only [calculateTokenCost]; ring

/-- Witness for `calculateTokenCost_formula`: at the known model `gpt-4` the
table entry is used, and doubling both token counts doubles the cost for a
concrete input. -/
theorem calculateTokenCost_formula_witness :
    calculateTokenCost 1000 500 "gpt-4" = (1000 * 0.03 + 500 * 0.06) / 1000000 ∧
    calculateTokenCost 2000 1000 "gpt-4" = 2 * calculateTokenCost 1000 500 "gpt-4" := by
  refine ⟨(calculateTokenCost_formula "gpt-4" 1000 500).1 ⟨0.03, 0.06⟩ rfl, ?_⟩
  have h := (calculateTokenCost_formula "gpt-4" 1000 500).2.2.1
  norm_num at h ⊢
  exact h

/-!
## The `queryOpenAI` retry loop (src/index.js:64-128)

The external API call is abstracted as a stream `call : Nat → AttemptOutcome`
giving the outcome of the 0-based `j`-th attempt.  A decoded JSON value and
the parsed payload object model what `JSON.parse` produces, so that the
structural validation at src/index.js:100 can be stated faithfully
(JS truthiness, typeof not equal to boolean, `Array.isArray`).
-/

/-- A decoded JSON value (numbers modelled as integers; no claim involves
fractional payload numbers). -/
inductive JsonValue where
  | null
  | bool (b : Bool)
  | num (n : Int)
  | str (s : String)
  | arr (elems : List JsonValue)
deriving Repr

/-- The object produced by `JSON.parse` at src/index.js:97, restricted to the
four schema fields; `none` models an absent (`undefined`) field.  `cont` is
the JS field `continue`. -/
structure ParsedPayload where
  response : Option JsonValue
  cont : Option JsonValue
  missingContext : Option JsonValue
  confidence : Option JsonValue
deriving Repr

/-- JS truthiness of a possibly-absent value: `undefined`, `null`, `false`,
`0` and `""` are falsy, everything else truthy. -/
def jsTruthy : Option JsonValue → Bool
  | none => false
  | some JsonValue.null => false
  | some (JsonValue.bool b) => b
  | some (JsonValue.num n) => n != 0
  | some (JsonValue.str s) => s != ""
  | some (JsonValue.arr _) => true

/-- The JS test that typeof x is boolean, on a possibly-absent value. -/
def isBooleanJS : Option JsonValue → Bool
  | some (JsonValue.bool _) => true
  | _ => false

/-- `Array.isArray(x)` on a possibly-absent value. -/
def isArrayJS : Option JsonValue → Bool
  | some (JsonValue.arr _) => true
  | _ => false

/-- The validation at src/index.js:100: the payload is accepted iff
`parsedResponse.response` is truthy, typeof of the `continue` field is
boolean, and `Array.isArray(parsedResponse.missingContext)`. -/
def validPayload (p : ParsedPayload) : Bool :=
  jsTruthy p.response && isBooleanJS p.cont && isArrayJS p.missingContext

/-- The Reply contract as the spec words it (§4.3 / claim C4): `text` a
non-empty string, `shouldContinue` boolean, `openGaps` a list of strings,
`confidence` present.  This definition follows the wording of the spec, for the
refinement comparison with `validPayload` (which follows the code). -/
def specContractValid (p : ParsedPayload) : Bool :=
  (match p.response with
   | some (JsonValue.str s) => s != ""
   | _ => false) &&
  isBooleanJS p.cont &&
  (match p.missingContext with
   | some (JsonValue.arr elems) =>
       elems.all fun v =>
         match v with
         | JsonValue.str _ => true
         | _ => false
   | _ => false) &&
  p.confidence.isSome

/-- Outcome of one attempt inside the `try` block: either the call succeeded
with content that parsed into a payload (validation happens afterwards in the
loop model), or something was thrown before validation — an API error carries
`error.status = some s`; an empty-content error (src/index.js:94) or a
`JSON.parse` failure throws a plain `Error` with no status (`none`). -/
inductive AttemptOutcome where
  | payload (p : ParsedPayload)
  | failure (status : Option Nat)
deriving Repr

/-- The terminal failure of `queryOpenAI`:
`apiFailedAfter k` is the throw at src/index.js:122
(`OpenAI API failed after k attempt(s)`), and `lastErrorThrow` the
`throw lastError` at src/index.js:127 (reachable only with `maxRetries = 0`). -/
inductive QueryFailure where
  | apiFailedAfter (attempts : Nat)
  | lastErrorThrow
deriving DecidableEq, Repr

/-- Observable result of a `queryOpenAI` run: how many attempts were made,
the backoff delays slept (in order), and the final outcome. -/
structure QueryTrace where
  attempts : Nat
  delays : List Nat
  outcome : Except QueryFailure ParsedPayload
deriving Repr

/-- `isRetryable` (src/index.js:115):
`error.status === 429 || error.status === 500 || error.status === 503`;
an error without a status (`none`) is never retryable. -/
def isRetryableStatus : Option Nat → Bool
  | some s => s == 429 || s == 500 || s == 503
  | none => false

/-- The `while (attempt < maxRetries)` loop of src/index.js:67-125.
`attempt` counts completed attempts (the 0-based index of the next one);
`fuel = maxRetries - attempt` makes the recursion structural.  On attempt
`k = attempt + 1`: a payload passing validation returns; a payload failing
validation throws an Error with no status, which the catch at
src/index.js:113-124 finds non-retryable and rethrows as `apiFailedAfter k`;
a thrown failure retries (after sleeping `retryDelay * 2^(k-1)` ms,
src/index.js:118) iff its status is retryable and `k < maxRetries`,
otherwise it becomes `apiFailedAfter k`. -/
def queryAux (call : Nat → AttemptOutcome) (maxRetries retryDelay : Nat) :
    Nat → Nat → List Nat → QueryTrace
  | attempt, 0, delays =>
      { attempts := attempt, delays := delays,
        outcome := Except.error QueryFailure.lastErrorThrow }
  | attempt, fuel + 1, delays =>
      let k := attempt + 1
      match call attempt with
      | AttemptOutcome.payload p =>
          if validPayload p then
            { attempts := k, delays := delays, outcome := Except.ok p }
          else
            { attempts := k, delays := delays,
              outcome := Except.error (QueryFailure.apiFailedAfter k) }
      | AttemptOutcome.failure status =>
          if isRetryableStatus status = true ∧ k < maxRetries then
            queryAux call maxRetries retryDelay k fuel
              (delays ++ [retryDelay * 2 ^ (k - 1)])
          else
            { attempts := k, delays := delays,
              outcome := Except.error (QueryFailure.apiFailedAfter k) }

/-- `queryOpenAI` (src/index.js:64-128) restricted to its retry/validation
behaviour: runs the loop from `attempt = 0`. -/
def queryOpenAI (call : Nat → AttemptOutcome) (maxRetries retryDelay : Nat) :
    QueryTrace :=
  queryAux call maxRetries retryDelay 0 maxRetries []

/-- The sequence of backoff delays slept by a run of consecutive retried
attempts: starting at attempt index `attempt` (0-based), `n` retries sleep
`retryDelay * 2^attempt, retryDelay * 2^(attempt+1), …`. -/
def backoffDelays (retryDelay attempt : Nat) : Nat → List Nat
  | 0 => []
  | n + 1 => retryDelay * 2 ^ attempt :: backoffDelays retryDelay (attempt + 1) n

theorem backoffDelays_eq_map_range (retryDelay : Nat) :
    ∀ n attempt, backoffDelays retryDelay attempt n =
      (List.range n).map (fun j => retryDelay * 2 ^ (attempt + j)) := by
  intro n
  induction n with
  | zero => intro a; simp [backoffDelays]
  | succ m ih =>
    intro a
    rw [backoffDelays, List.range_succ_eq_map, List.map_cons, List.map_map, ih (a + 1)]
    refine congrArg₂ _ (by rw [Nat.add_zero]) ?_
    congr 1
    funext j
    simp only [Function.comp_apply]
    have hx : a + Nat.succ j = a + 1 + j := by omega
    rw [hx]

/-- One step of the loop on a retryable failure with attempts left: sleep
the backoff delay and recurse. -/
theorem queryAux_step_retry (call : Nat → AttemptOutcome)
    (maxRetries retryDelay attempt fuel : Nat) (delays : List Nat)
    (st : Option Nat) (hst : call attempt = AttemptOutcome.failure st)
    (h : isRetryableStatus st = true ∧ attempt + 1 < maxRetries) :
    queryAux call maxRetries retryDelay attempt (fuel + 1) delays =
      queryAux call maxRetries retryDelay (attempt + 1) fuel
        (delays ++ [retryDelay * 2 ^ (attempt + 1 - 1)]) := by
  simp only [queryAux, hst]
  rw [if_pos h]

/-- When every attempt from `attempt` on fails with a retryable status, the
loop makes all remaining attempts, sleeping the doubling backoff delays, and
finally throws `apiFailedAfter maxRetries`. -/
theorem queryAux_allRetryable (call : Nat → AttemptOutcome)
    (maxRetries retryDelay : Nat) :
    ∀ fuel attempt delays, attempt + fuel = maxRetries → 1 ≤ fuel →
      (∀ j, attempt ≤ j → j < maxRetries →
        ∃ st, call j = AttemptOutcome.failure st ∧ isRetryableStatus st = true) →
      queryAux call maxRetries retryDelay attempt fuel delays =
        { attempts := maxRetries,
          delays := delays ++ backoffDelays retryDelay attempt (fuel - 1),
          outcome := Except.error (QueryFailure.apiFailedAfter maxRetries) } := by
  intro fuel
  induction fuel with
  | zero => intro attempt delays _ h1; omega
  | succ f ih =>
    intro attempt delays hsum _ hcall
    obtain ⟨st, hst, hret⟩ := hcall attempt (Nat.le_refl _) (by omega)
    cases f with
    | zero =>
      simp only [queryAux, hst]
      rw [if_neg (by intro hcontra; omega)]
      have hk : attempt + 1 = maxRetries := by omega
      simp [hk, backoffDelays]
    | succ g =>
      rw [queryAux_step_retry call maxRetries retryDelay attempt (g + 1) delays st hst
        ⟨hret, by omega⟩]
      rw [ih (attempt + 1) (delays ++ [retryDelay * 2 ^ (attempt + 1 - 1)])
        (by omega) (by omega) (fun j hj hj2 => hcall j (by omega) hj2)]
      simp [backoffDelays, List.append_assoc]

/-- If attempts before `jstop` all fail with retryable statuses and attempt
`jstop` fails with a non-retryable status, the loop stops right there:
`jstop + 1` attempts, `jstop` backoff sleeps, no further retry. -/
theorem queryAux_stopsAtNonRetryable (call : Nat → AttemptOutcome)
    (maxRetries retryDelay : Nat) :
    ∀ fuel attempt delays jstop, attempt + fuel = maxRetries →
      attempt ≤ jstop → jstop < maxRetries →
      (∀ j, attempt ≤ j → j < jstop →
        ∃ st, call j = AttemptOutcome.failure st ∧ isRetryableStatus st = true) →
      (∃ st, call jstop = AttemptOutcome.failure st ∧
        isRetryableStatus st = false) →
      queryAux call maxRetries retryDelay attempt fuel delays =
        { attempts := jstop + 1,
          delays := delays ++ backoffDelays retryDelay attempt (jstop - attempt),
          outcome := Except.error (QueryFailure.apiFailedAfter (jstop + 1)) } := by
  intro fuel
  induction fuel with
  | zero => intro attempt delays jstop h1 h2 h3 _ _; omega
  | succ f ih =>
    intro attempt delays jstop h1 h2 h3 hret hstop
    by_cases heq : attempt = jstop
    · subst heq
      obtain ⟨st, hst, hnr⟩ := hstop
      simp only [queryAux, hst]
      rw [if_neg (by rintro ⟨hr, -⟩; rw [hnr] at hr; exact absurd hr (by simp))]
      simp [backoffDelays]
    · obtain ⟨st, hst, hr⟩ := hret attempt (Nat.le_refl _) (by omega)
      simp only [queryAux, hst]
      rw [if_pos ⟨hr, by omega⟩]
      rw [ih (attempt + 1) (delays ++ [retryDelay * 2 ^ (attempt + 1 - 1)]) jstop
        (by omega) (by omega) h3 (fun j hj hj2 => hret j (by omega) hj2) hstop]
      have hsub : jstop - attempt = (jstop - (attempt + 1)) + 1 := by omega
      rw [hsub]
      simp [backoffDelays, List.append_assoc]

/-- C8: while every attempt fails with a transient status (429/500/503) the
loop retries with doubling backoff — the delay slept before the retry that
follows attempt `k` is `retryDelay * 2^(k-1)` — until `maxRetries` attempts
have been made (at most `maxRetries - 1` retries, within the claimed
bound of `maxRetries` retries), then fails; a non-transient first failure
fails immediately with a single attempt and no backoff sleep. -/
theorem queryOpenAI_retry_policy (call : Nat → AttemptOutcome)
    (maxRetries retryDelay : Nat) (hm : 1 ≤ maxRetries) :
    ((∀ j, j < maxRetries →
        ∃ st, call j = AttemptOutcome.failure st ∧ isRetryableStatus st = true) →
      queryOpenAI call maxRetries retryDelay =
        { attempts := maxRetries,
          delays := (List.range (maxRetries - 1)).map (fun j => retryDelay * 2 ^ j),
          outcome := Except.error (QueryFailure.apiFailedAfter maxRetries) }) ∧
    (∀ st, call 0 = AttemptOutcome.failure st → isRetryableStatus st = false →
      queryOpenAI call maxRetries retryDelay =
        { attempts := 1, delays := [],
          outcome := Except.error (QueryFailure.apiFailedAfter 1) }) ∧
    (∀ jstop, jstop < maxRetries →
      (∀ j, j < jstop →
        ∃ st, call j = AttemptOutcome.failure st ∧ isRetryableStatus st = true) →
      (∃ st, call jstop = AttemptOutcome.failure st ∧
        isRetryableStatus st = false) →
      queryOpenAI call maxRetries retryDelay =
        { attempts := jstop + 1,
          delays := (List.range jstop).map (fun j => retryDelay * 2 ^ j),
          outcome := Except.error (QueryFailure.apiFailedAfter (jstop + 1)) }) := by
  obtain ⟨m, rfl⟩ : ∃ m, maxRetries = m + 1 := ⟨maxRetries - 1, by omega⟩
  constructor
  · intro hcall
    rw [queryOpenAI,
      queryAux_allRetryable call (m + 1) retryDelay (m + 1) 0 [] (by omega) (by omega)
        (fun j _ hj2 => hcall j hj2)]
    rw [backoffDelays_eq_map_range]
    simp
  constructor
  · intro st hst hret
    simp only [queryOpenAI, queryAux, hst]
    rw [if_neg (by intro hcontra; rw [hret] at hcontra; exact absurd hcontra.1 (by simp))]
  · intro jstop hlt hret hstop
    rw [queryOpenAI,
      queryAux_stopsAtNonRetryable call (m + 1) retryDelay (m + 1) 0 [] jstop
        (by omega) (by omega) hlt (fun j _ hj2 => hret j hj2) hstop]
    rw [backoffDelays_eq_map_range]
    simp

/-- Witness for `queryOpenAI_retry_policy`: three attempts all failing with
HTTP 429 sleep 1000ms then 2000ms and fail after the third attempt. -/
theorem queryOpenAI_retry_policy_witness :
    queryOpenAI (fun _ => AttemptOutcome.failure (some 429)) 3 1000 =
      { attempts := 3, delays := [1000, 2000],
        outcome := Except.error (QueryFailure.apiFailedAfter 3) } := by
  have h := (queryOpenAI_retry_policy (fun _ => AttemptOutcome.failure (some 429)) 3 1000
    (by omega)).1 (fun j _ => ⟨some 429, rfl, rfl⟩)
  rw [h]
  norm_num [List.range_succ]

/-- The concrete payload for the C4 counterexample: `response` is the number
5 (truthy, but not a string) and `confidence` is absent. -/
def contractCexPayload : ParsedPayload :=
  { response := some (JsonValue.num 5), cont := some (JsonValue.bool false),
    missingContext := some (JsonValue.arr []), confidence := none }

/-- C4 counterexample: this payload violates the Reply contract of the spec (its
`text` is not a string and its `confidence` is absent), yet the
validation in the code accepts it and `queryOpenAI` returns it as a success — it is
neither rejected nor a ContractViolation. -/
theorem queryOpenAI_contract_counterexample :
    validPayload contractCexPayload = true ∧
    specContractValid contractCexPayload = false ∧
    contractCexPayload.confidence = none ∧
    queryOpenAI (fun _ => AttemptOutcome.payload contractCexPayload) 3 1000 =
      { attempts := 1, delays := [], outcome := Except.ok contractCexPayload } :=
  ⟨rfl, rfl, rfl, rfl⟩

/-- C4 amended: after a successful call the decoded payload is validated
against the three checks the code makes — truthy `response`, boolean
`continue`, `Array.isArray(missingContext)` — and any payload failing one of
them is rejected immediately as a non-retryable failure (one attempt, no
backoff); a payload with non-empty string text, boolean continue and an
array of gaps is accepted; but neither the element type of `missingContext`
nor the presence of `confidence` is checked. -/
theorem queryOpenAI_contract_validation (call : Nat → AttemptOutcome)
    (p : ParsedPayload) (maxRetries retryDelay : Nat)
    (hcall : call 0 = AttemptOutcome.payload p) (hm : 1 ≤ maxRetries) :
    (validPayload p = false →
      queryOpenAI call maxRetries retryDelay =
        { attempts := 1, delays := [],
          outcome := Except.error (QueryFailure.apiFailedAfter 1) }) ∧
    (validPayload p = true →
      queryOpenAI call maxRetries retryDelay =
        { attempts := 1, delays := [], outcome := Except.ok p }) ∧
    (validPayload p = true →
      jsTruthy p.response = true ∧ isBooleanJS p.cont = true ∧
        isArrayJS p.missingContext = true) ∧
    (p.response = some (JsonValue.str "") → validPayload p = false) ∧
    (p.response = none → validPayload p = false) ∧
    (∀ s b elems, p.response = some (JsonValue.str s) → s ≠ "" →
      p.cont = some (JsonValue.bool b) →
      p.missingContext = some (JsonValue.arr elems) →
      validPayload p = true) := by
  obtain ⟨m, rfl⟩ : ∃ m, maxRetries = m + 1 := ⟨maxRetries - 1, by omega⟩
  refine ⟨?_, ?_, ?_, ?_, ?_, ?_⟩
  · intro hv
    simp [queryOpenAI, queryAux, hcall, hv]
  · intro hv
    simp [queryOpenAI, queryAux, hcall, hv]
  · intro hv
    simp only [validPayload, Bool.and_eq_true] at hv
    exact ⟨hv.1.1, hv.1.2, hv.2⟩
  · intro hr
    simp [validPayload, jsTruthy, hr]
  · intro hr
    simp [validPayload, jsTruthy, hr]
  · intro s b elems hr hs hc hmc
    simp [validPayload, jsTruthy, isBooleanJS, isArrayJS, hr, hc, hmc, hs]

/-- Witness for `queryOpenAI_contract_validation`: a payload with absent
`response` is rejected on the first attempt with no retry. -/
theorem queryOpenAI_contract_validation_witness :
    queryOpenAI
        (fun _ => AttemptOutcome.payload
          ⟨none, some (JsonValue.bool true), some (JsonValue.arr []),
           some (JsonValue.num 50)⟩) 3 1000 =
      { attempts := 1, delays := [],
        outcome := Except.error (QueryFailure.apiFailedAfter 1) } :=
  (queryOpenAI_contract_validation
    (fun _ => AttemptOutcome.payload
      ⟨none, some (JsonValue.bool true), some (JsonValue.arr []),
       some (JsonValue.num 50)⟩)
    ⟨none, some (JsonValue.bool true), some (JsonValue.arr []),
     some (JsonValue.num 50)⟩ 3 1000 rfl (by omega)).1 rfl

/-!
## The `converge` loop (src/index.js:214-390)

The replies of the two agents are abstracted as streams `rA rB : Nat → Reply`
indexed by the 0-based loop counter `i` (`rA i` is what the validated
`queryOpenAI` call for Agent A returns in iteration `i + 1`, and similarly
`rB i`; a turn that fails terminally is outside this model — it aborts the
whole run, and no claim concerns that path).  The `onIteration` callback is
a function `cb` that may raise (`Except.error`); the JS code invokes it with
no surrounding try/catch (src/index.js:359-366), so an error is propagated.
Console output and the token/cost bookkeeping are elided: they do not affect
control flow and no claim concerns the `tokens`/`estimatedCost` fields.
-/

/-- The two agents. -/
inductive Party where
  | A
  | B
deriving DecidableEq, Repr

/-- One entry of the `conversation` array (src/index.js:284-289, 334-339):
iteration (1-based), agent, and the reply of that agent.  The constant `role`
string pushed alongside is configuration, elided. -/
structure ConvTurn where
  iteration : Nat
  agent : Party
  reply : Reply
deriving DecidableEq, Repr

/-- The result object returned by `converge`, restricted to the fields the
claims concern.  `callbackEvents` records, per `onIteration` invocation, the
`iteration` and `converged` fields of the snapshot passed to the callback
(src/index.js:360-365). -/
structure ConvergeResult where
  converged : Bool
  iterations : Nat
  finalResponse : Reply
  conversation : List ConvTurn
  convergenceScore : Int
  callbackEvents : List (Nat × Bool)
deriving DecidableEq, Repr

/-- The `for` loop of src/index.js:253-369 plus the post-loop return of
src/index.js:371-389.  `i` is the 0-based loop counter,
`fuel = maxIterations - i` makes the recursion structural, and
`lastA`/`lastB` are the JS variables `agentAResponse`/`agentBResponse`
(initialized `null` at src/index.js:244-245).  When the loop exhausts, the
code reads `agentAResponse`/`agentBResponse`; with `maxIterations ≥ 1` they
are always set, and the unreachable `null` read is modelled as an error. -/
def convergeAux (rA rB : Nat → Reply) (cb : Nat × Bool → Except String Unit)
    (maxIterations : Nat) :
    Nat → Nat → Option Reply → Option Reply → List ConvTurn →
      List (Nat × Bool) → Except String ConvergeResult
  | _, 0, some a, some b, conv, events =>
      let finalScore := max (getConvergenceScore a) (getConvergenceScore b)
      Except.ok
        { converged := false, iterations := maxIterations,
          finalResponse := if finalScore = getConvergenceScore a then a else b,
          conversation := conv, convergenceScore := finalScore,
          callbackEvents := events }
  | _, 0, _, _, _, _ =>
      Except.error "TypeError: agent responses are null"
  | i, fuel + 1, _, _, conv, events =>
      let a := rA i
      let conv1 := conv ++ [{ iteration := i + 1, agent := Party.A, reply := a }]
      if hasConverged a then
        Except.ok
          { converged := true, iterations := i + 1, finalResponse := a,
            conversation := conv1, convergenceScore := 100,
            callbackEvents := events }
      else
        let b := rB i
        let conv2 := conv1 ++ [{ iteration := i + 1, agent := Party.B, reply := b }]
        if hasConverged b then
          Except.ok
            { converged := true, iterations := i + 1, finalResponse := b,
              conversation := conv2, convergenceScore := 100,
              callbackEvents := events }
        else
          match cb (i + 1, false) with
          | Except.error e => Except.error e
          | Except.ok _ =>
              convergeAux rA rB cb maxIterations (i + 1) fuel (some a) (some b)
                conv2 (events ++ [(i + 1, false)])

/-- JS `String.prototype.trim` over the character list: strips leading and
trailing whitespace (the library `String.trim` is extensionally the same but
does not reduce inside the kernel, which concrete runs below need). -/
def jsTrim (s : String) : List Char :=
  ((s.data.dropWhile Char.isWhitespace).reverse.dropWhile Char.isWhitespace).reverse

/-- `converge` (src/index.js:214-390): the precondition checks of
src/index.js:215-235 (`initialQuery` non-empty after trim, `maxIterations`
a positive integer — integrality is inherent in `Nat` — and `temperature`
in [0,2]), then the loop from `i = 0` with null last responses. -/
def converge (initialQuery : String) (rA rB : Nat → Reply)
    (cb : Nat × Bool → Except String Unit) (maxIterations : Nat)
    (temperature : ℚ) : Except String ConvergeResult :=
  if (jsTrim initialQuery).length = 0 then
    Except.error "Invalid initialQuery: must be a non-empty string"
  else if maxIterations < 1 then
    Except.error "maxIterations must be a positive integer"
  else if temperature < 0 ∨ 2 < temperature then
    Except.error "temperature must be between 0 and 2"
  else
    convergeAux rA rB cb maxIterations 0 maxIterations none none [] []

/-- C6: if the Party-A reply in iteration 1 converges, the run returns at once
with `converged = true`, `iterations = 1`, score 100 and the Party-A reply as
the final response; the conversation holds exactly the single Party-A turn,
so no Party-B call was made and the callback was never invoked. -/
theorem converge_early_stop (q : String) (rA rB : Nat → Reply)
    (cb : Nat × Bool → Except String Unit) (m : Nat) (t : ℚ)
    (hq : (jsTrim q).length ≠ 0) (hm : 1 ≤ m) (ht : 0 ≤ t ∧ t ≤ 2)
    (hA : hasConverged (rA 0) = true) :
    converge q rA rB cb m t =
      Except.ok
        { converged := true, iterations := 1, finalResponse := rA 0,
          conversation := [{ iteration := 1, agent := Party.A, reply := rA 0 }],
          convergenceScore := 100, callbackEvents := [] } ∧
    (∀ res, converge q rA rB cb m t = Except.ok res →
      ∀ turn ∈ res.conversation, turn.agent ≠ Party.B) := by
  obtain ⟨m', rfl⟩ : ∃ m', m = m' + 1 := ⟨m - 1, by omega⟩
  have hrun : converge q rA rB cb (m' + 1) t =
      Except.ok
        { converged := true, iterations := 1, finalResponse := rA 0,
          conversation := [{ iteration := 1, agent := Party.A, reply := rA 0 }],
          convergenceScore := 100, callbackEvents := [] } := by
    have hts : ¬(t < 0 ∨ 2 < t) := by push_neg; exact ⟨ht.1, ht.2⟩
    rw [converge, if_neg hq, if_neg (by omega), if_neg hts]
    simp [convergeAux, hA]
  refine ⟨hrun, ?_⟩
  intro res hres turn hturn
  rw [hrun] at hres
  injection hres with hres
  rw [← hres] at hturn
  simp at hturn
  rw [hturn]
  simp

/-- Witness for `converge_early_stop`: a concrete immediately-converging
session. -/
theorem converge_early_stop_witness :
    converge "explain" (fun _ => ⟨"done", false, [], 95⟩)
        (fun _ => ⟨"unused", true, [], 10⟩) (fun _ => Except.ok ()) 1 0 =
      Except.ok
        { converged := true, iterations := 1,
          finalResponse := ⟨"done", false, [], 95⟩,
          conversation :=
            [{ iteration := 1, agent := Party.A,
               reply := ⟨"done", false, [], 95⟩ }],
          convergenceScore := 100, callbackEvents := [] } :=
  (converge_early_stop "explain" (fun _ => ⟨"done", false, [], 95⟩)
    (fun _ => ⟨"unused", true, [], 10⟩) (fun _ => Except.ok ()) 1 0
    (by decide) (by omega) (by norm_num) rfl).1

/-- One step of the loop when neither party converges and the callback
returns normally: both turns are appended, the callback event recorded, and
the loop moves to the next iteration. -/
theorem convergeAux_step (rA rB : Nat → Reply)
    (cb : Nat × Bool → Except String Unit) (m i fuel : Nat)
    (lastA lastB : Option Reply) (conv : List ConvTurn)
    (events : List (Nat × Bool))
    (hA : hasConverged (rA i) = false) (hB : hasConverged (rB i) = false)
    (hcb : cb (i + 1, false) = Except.ok ()) :
    convergeAux rA rB cb m i (fuel + 1) lastA lastB conv events =
      convergeAux rA rB cb m (i + 1) fuel (some (rA i)) (some (rB i))
        (conv ++ [{ iteration := i + 1, agent := Party.A, reply := rA i },
                  { iteration := i + 1, agent := Party.B, reply := rB i }])
        (events ++ [(i + 1, false)]) := by
  simp [convergeAux, hA, hB, hcb]

/-- The turn log contributed by iterations `i+1 … i+n` when every turn in
them runs and none converges. -/
def turnsFrom (rA rB : Nat → Reply) (i : Nat) : Nat → List ConvTurn
  | 0 => []
  | n + 1 =>
      { iteration := i + 1, agent := Party.A, reply := rA i } ::
      { iteration := i + 1, agent := Party.B, reply := rB i } ::
      turnsFrom rA rB (i + 1) n

/-- The callback events contributed by completed iterations `i+1 … i+n`. -/
def eventsFrom (i : Nat) : Nat → List (Nat × Bool)
  | 0 => []
  | n + 1 => (i + 1, false) :: eventsFrom (i + 1) n

/-- A run whose remaining `fuel + 1` iterations never converge (and whose
callback never throws) exhausts the bound: it returns `converged = false`,
`iterations = maxIterations`, the better-scoring reply of the final iteration
(Party-A on ties, by the `finalScore === score(agentAResponse)` test at
src/index.js:384), the full turn log, and one callback event per
iteration. -/
theorem convergeAux_exhausted (rA rB : Nat → Reply)
    (cb : Nat × Bool → Except String Unit) (m : Nat)
    (hcb : ∀ e, cb e = Except.ok ()) :
    ∀ fuel i lastA lastB conv events,
      (∀ j, j ≤ fuel → hasConverged (rA (i + j)) = false ∧
        hasConverged (rB (i + j)) = false) →
      convergeAux rA rB cb m i (fuel + 1) lastA lastB conv events =
        Except.ok
          { converged := false, iterations := m,
            finalResponse :=
              if max (getConvergenceScore (rA (i + fuel)))
                   (getConvergenceScore (rB (i + fuel))) =
                 getConvergenceScore (rA (i + fuel))
              then rA (i + fuel) else rB (i + fuel),
            conversation := conv ++ turnsFrom rA rB i (fuel + 1),
            convergenceScore :=
              max (getConvergenceScore (rA (i + fuel)))
                (getConvergenceScore (rB (i + fuel))),
            callbackEvents := events ++ eventsFrom i (fuel + 1) } := by
  intro fuel
  induction fuel with
  | zero =>
    intro i lastA lastB conv events h
    obtain ⟨hA, hB⟩ := h 0 (Nat.le_refl 0)
    rw [Nat.add_zero] at hA hB
    rw [convergeAux_step rA rB cb m i 0 lastA lastB conv events hA hB (hcb _)]
    simp [convergeAux, turnsFrom, eventsFrom]
  | succ f ih =>
    intro i lastA lastB conv events h
    obtain ⟨hA, hB⟩ := h 0 (Nat.zero_le _)
    rw [Nat.add_zero] at hA hB
    rw [convergeAux_step rA rB cb m i (f + 1) lastA lastB conv events hA hB (hcb _)]
    rw [ih (i + 1) (some (rA i)) (some (rB i)) _ _
      (fun j hj => by
        have hx := h (j + 1) (by omega)
        have hy : i + (j + 1) = i + 1 + j := by omega
        rw [hy] at hx
        exact hx)]
    have hidx : i + 1 + f = i + (f + 1) := by omega
    rw [hidx]
    simp [turnsFrom, eventsFrom, List.append_assoc]

/-- Each completed iteration contributes exactly one Party-A and one Party-B
turn to the log. -/
theorem turnsFrom_filter_length (rA rB : Nat → Reply) (p : Party) :
    ∀ n i, ((turnsFrom rA rB i n).filter
      (fun turn => turn.agent == p)).length = n := by
  intro n
  induction n with
  | zero => intro i; simp [turnsFrom]
  | succ k ih =>
    intro i
    cases p with
    | A =>
      simp [turnsFrom, List.filter, ih,
        show (Party.A == Party.A) = true from rfl,
        show (Party.B == Party.A) = false from rfl]
    | B =>
      simp [turnsFrom, List.filter, ih,
        show (Party.A == Party.B) = false from rfl,
        show (Party.B == Party.B) = true from rfl]

/-- Any successful run of the loop reports at most
`max maxIterations (i + fuel)` iterations. -/
theorem convergeAux_iterations_le (rA rB : Nat → Reply)
    (cb : Nat × Bool → Except String Unit) (m : Nat) :
    ∀ fuel i lastA lastB conv events res,
      convergeAux rA rB cb m i fuel lastA lastB conv events = Except.ok res →
      res.iterations ≤ max m (i + fuel) := by
  intro fuel
  induction fuel with
  | zero =>
    intro i lastA lastB conv events res h
    cases lastA with
    | none => simp [convergeAux] at h
    | some a =>
      cases lastB with
      | none => simp [convergeAux] at h
      | some b =>
        simp only [convergeAux, Except.ok.injEq] at h
        rw [← h]
        simp
  | succ f ih =>
    intro i lastA lastB conv events res h
    have hub : i + (f + 1) ≤ max m (i + (f + 1)) := le_max_right _ _
    by_cases hA : hasConverged (rA i) = true
    · simp only [convergeAux, hA, if_true, Except.ok.injEq] at h
      rw [← h]
      dsimp only
      omega
    · rw [Bool.not_eq_true] at hA
      by_cases hB : hasConverged (rB i) = true
      · simp only [convergeAux, hA, hB, Bool.false_eq_true, if_false, if_true,
          Except.ok.injEq] at h
        rw [← h]
        dsimp only
        omega
      · rw [Bool.not_eq_true] at hB
        cases hcb : cb (i + 1, false) with
        | error e =>
          rw [convergeAux] at h
          simp [hA, hB, hcb] at h
        | ok u =>
          cases u
          rw [convergeAux_step rA rB cb m i f lastA lastB conv events hA hB hcb] at h
          have hle := ih (i + 1) (some (rA i)) (some (rB i)) _ _ res h
          omega

/-- C7: when no queried reply ever converges, the run executes exactly
`maxIterations` Party-A turns and exactly `maxIterations` Party-B turns,
returns `converged = false` with `iterations = maxIterations`; moreover no
successful run whatsoever reports more than `maxIterations` iterations. -/
theorem converge_bounded_iteration (q : String) (rA rB : Nat → Reply)
    (cb : Nat × Bool → Except String Unit) (m : Nat) (t : ℚ)
    (hq : (jsTrim q).length ≠ 0) (hm : 1 ≤ m) (ht : 0 ≤ t ∧ t ≤ 2)
    (hcb : ∀ e, cb e = Except.ok ())
    (h : ∀ j, j < m →
      hasConverged (rA j) = false ∧ hasConverged (rB j) = false) :
    ∃ res, converge q rA rB cb m t = Except.ok res ∧
      res.converged = false ∧ res.iterations = m ∧
      (res.conversation.filter (fun turn => turn.agent == Party.A)).length = m ∧
      (res.conversation.filter (fun turn => turn.agent == Party.B)).length = m ∧
      (∀ rA2 rB2 res2, converge q rA2 rB2 cb m t = Except.ok res2 →
        res2.iterations ≤ m) := by
  obtain ⟨m', rfl⟩ : ∃ m', m = m' + 1 := ⟨m - 1, by omega⟩
  have hts : ¬(t < 0 ∨ 2 < t) := by push_neg; exact ⟨ht.1, ht.2⟩
  have hpre : ∀ rA2 rB2 : Nat → Reply, converge q rA2 rB2 cb (m' + 1) t =
      convergeAux rA2 rB2 cb (m' + 1) 0 (m' + 1) none none [] [] := by
    intro rA2 rB2
    rw [converge, if_neg hq, if_neg (by omega), if_neg hts]
  rw [hpre rA rB, convergeAux_exhausted rA rB cb (m' + 1) hcb m' 0 none none [] []
    (fun j hj => by rw [Nat.zero_add]; exact h j (by omega))]
  refine ⟨_, rfl, rfl, rfl, ?_, ?_, ?_⟩
  · simp [turnsFrom_filter_length]
  · simp [turnsFrom_filter_length]
  · intro rA2 rB2 res2 h2
    rw [hpre rA2 rB2] at h2
    have hle := convergeAux_iterations_le rA2 rB2 cb (m' + 1) (m' + 1) 0
      none none [] [] res2 h2
    simpa using hle

/-- Witness for `converge_bounded_iteration`: a concrete never-converging
two-iteration session executes two turns per party. -/
theorem converge_bounded_iteration_witness :
    ([( (1 : Nat), false)] : List (Nat × Bool)).length = 1 ∧
    (converge "q" (fun _ => ⟨"a", true, ["g"], 50⟩)
        (fun _ => ⟨"b", true, ["g"], 50⟩) (fun _ => Except.ok ()) 2 0).map
      (fun res => (res.converged, res.iterations)) = Except.ok (false, 2) := by
  refine ⟨rfl, ?_⟩
  obtain ⟨res, h1, h2, h3, -, -, -⟩ :=
    converge_bounded_iteration "q" (fun _ => ⟨"a", true, ["g"], 50⟩)
      (fun _ => ⟨"b", true, ["g"], 50⟩) (fun _ => Except.ok ()) 2 0
      (by decide) (by omega) (by norm_num) (fun e => rfl)
      (fun j hj => ⟨rfl, rfl⟩)
  rw [h1]
  simp [Except.map, h2, h3]

/-- C1 (amended): on exhaustion the returned `finalResponse` is the reply
with the higher score among the Party-A and Party-B
replies of the final iteration, with ties broken toward Party-A (the `finalScore ===
getConvergenceScore(agentAResponse)` test at src/index.js:384 picks Party-A
whenever the scores tie), `convergenceScore` is the score of that reply (the max
of the two), and only the replies of the final iteration are considered. -/
theorem converge_exhausted_choice (q : String) (rA rB : Nat → Reply)
    (cb : Nat × Bool → Except String Unit) (m : Nat) (t : ℚ)
    (hq : (jsTrim q).length ≠ 0) (hm : 1 ≤ m) (ht : 0 ≤ t ∧ t ≤ 2)
    (hcb : ∀ e, cb e = Except.ok ())
    (h : ∀ j, j < m →
      hasConverged (rA j) = false ∧ hasConverged (rB j) = false) :
    ∃ res, converge q rA rB cb m t = Except.ok res ∧
      res.converged = false ∧
      res.convergenceScore =
        max (getConvergenceScore (rA (m - 1))) (getConvergenceScore (rB (m - 1))) ∧
      (getConvergenceScore (rB (m - 1)) ≤ getConvergenceScore (rA (m - 1)) →
        res.finalResponse = rA (m - 1)) ∧
      (getConvergenceScore (rA (m - 1)) < getConvergenceScore (rB (m - 1)) →
        res.finalResponse = rB (m - 1)) ∧
      res.convergenceScore = getConvergenceScore res.finalResponse := by
  obtain ⟨m', rfl⟩ : ∃ m', m = m' + 1 := ⟨m - 1, by omega⟩
  have hts : ¬(t < 0 ∨ 2 < t) := by push_neg; exact ⟨ht.1, ht.2⟩
  rw [converge, if_neg hq, if_neg (by omega), if_neg hts,
    convergeAux_exhausted rA rB cb (m' + 1) hcb m' 0 none none [] []
      (fun j hj => by rw [Nat.zero_add]; exact h j (by omega))]
  simp only [Nat.zero_add, Nat.succ_sub_one]
  refine ⟨_, rfl, rfl, rfl, ?_, ?_, ?_⟩
  · intro hle
    dsimp only
    rw [max_eq_left hle, if_pos rfl]
  · intro hlt
    dsimp only
    rw [max_eq_right (le_of_lt hlt), if_neg (by omega)]
  · dsimp only
    rcases le_or_lt (getConvergenceScore (rB m')) (getConvergenceScore (rA m'))
      with hle | hlt
    · rw [max_eq_left hle, if_pos rfl]
    · rw [max_eq_right (le_of_lt hlt), if_neg (by omega)]

/-- Witness for `converge_exhausted_choice`: with final-iteration scores
40 (A) and 30 (B), the final response is the Party-A reply. -/
theorem converge_exhausted_choice_witness :
    (converge "q" (fun _ => ⟨"a", true, [], 50⟩) (fun _ => ⟨"b", true, ["g"], 50⟩)
        (fun _ => Except.ok ()) 1 0).map ConvergeResult.finalResponse =
      Except.ok ⟨"a", true, [], 50⟩ := by
  obtain ⟨res, h1, -, -, h4, -, -⟩ :=
    converge_exhausted_choice "q" (fun _ => ⟨"a", true, [], 50⟩)
      (fun _ => ⟨"b", true, ["g"], 50⟩) (fun _ => Except.ok ()) 1 0
      (by decide) (by omega) (by norm_num) (fun e => rfl)
      (fun j hj => ⟨rfl, rfl⟩)
  have hfr := h4 (by decide)
  rw [h1]
  simp [Except.map, hfr]

/-- The Party-A replies for the C1 counterexample: iteration 1 scores 90,
iteration 2 scores 40. -/
def cexRepliesA : Nat → Reply := fun i =>
  if i = 0 then ⟨"a1", false, ["g"], 80⟩ else ⟨"a2", true, [], 50⟩

/-- The Party-B replies for the C1 counterexample: iteration 1 scores 0,
iteration 2 scores 40 — tying the final score of Party-A. -/
def cexRepliesB : Nat → Reply := fun i =>
  if i = 0 then ⟨"b1", true, ["g1", "g2", "g3", "g4"], 50⟩
  else ⟨"b2", true, [], 50⟩

/-- C1 counterexample: in this exhausted two-iteration run the final
iteration scores tie at 40 and the code returns the Party-A reply — not
the Party-B reply as the claim states — and an iteration-1 reply scores 90, so the
returned reply is not the highest-scoring reply among all turns either. -/
theorem converge_final_choice_counterexample :
    (converge "q" cexRepliesA cexRepliesB (fun _ => Except.ok ()) 2 0).map
        (fun res => (res.finalResponse, res.convergenceScore)) =
      Except.ok (⟨"a2", true, [], 50⟩, 40) ∧
    (⟨"a2", true, [], 50⟩ : Reply) ≠ ⟨"b2", true, [], 50⟩ ∧
    getConvergenceScore ⟨"a2", true, [], 50⟩ =
      getConvergenceScore ⟨"b2", true, [], 50⟩ ∧
    getConvergenceScore (cexRepliesA 0) = 90 ∧
    getConvergenceScore (cexRepliesA 1) = 40 := by
  refine ⟨rfl, by decide, rfl, by decide, by decide⟩

/-- In any successful converged run, every callback event carries
`converged = false` and an iteration index strictly below the final
iteration count (the convergence checks at src/index.js:292 and 342 return
before the callback invocation at src/index.js:358-366 is reached). -/
theorem convergeAux_callback_events (rA rB : Nat → Reply)
    (cb : Nat × Bool → Except String Unit) (m : Nat) :
    ∀ fuel i lastA lastB conv events res,
      convergeAux rA rB cb m i fuel lastA lastB conv events = Except.ok res →
      res.converged = true →
      (∀ e ∈ events, e.2 = false ∧ e.1 ≤ i) →
      ∀ e ∈ res.callbackEvents, e.2 = false ∧ e.1 < res.iterations := by
  intro fuel
  induction fuel with
  | zero =>
    intro i lastA lastB conv events res h hc hev
    cases lastA with
    | none => simp [convergeAux] at h
    | some a =>
      cases lastB with
      | none => simp [convergeAux] at h
      | some b =>
        simp only [convergeAux, Except.ok.injEq] at h
        rw [← h] at hc
        simp at hc
  | succ f ih =>
    intro i lastA lastB conv events res h hc hev
    by_cases hA : hasConverged (rA i) = true
    · simp only [convergeAux, hA, if_true, Except.ok.injEq] at h
      rw [← h]
      dsimp only
      intro e he
      obtain ⟨h1, h2⟩ := hev e he
      exact ⟨h1, by omega⟩
    · rw [Bool.not_eq_true] at hA
      by_cases hB : hasConverged (rB i) = true
      · simp only [convergeAux, hA, hB, Bool.false_eq_true, if_false, if_true,
          Except.ok.injEq] at h
        rw [← h]
        dsimp only
        intro e he
        obtain ⟨h1, h2⟩ := hev e he
        exact ⟨h1, by omega⟩
      · rw [Bool.not_eq_true] at hB
        cases hcb : cb (i + 1, false) with
        | error e =>
          rw [convergeAux] at h
          simp [hA, hB, hcb] at h
        | ok u =>
          cases u
          rw [convergeAux_step rA rB cb m i f lastA lastB conv events hA hB hcb] at h
          refine ih (i + 1) (some (rA i)) (some (rB i)) _ _ res h hc ?_
          intro e he
          rw [List.mem_append] at he
          cases he with
          | inl hin =>
            obtain ⟨h1, h2⟩ := hev e hin
            exact ⟨h1, by omega⟩
          | inr hin =>
            rw [List.mem_singleton] at hin
            rw [hin]
            exact ⟨rfl, Nat.le_refl _⟩

/-- C10: in a run that converges, the `onIteration` callback was never
invoked for the converging iteration — every recorded callback invocation
belongs to a strictly earlier iteration, and every invocation was passed
`converged: false`. -/
theorem converge_callback_only_unconverged (q : String) (rA rB : Nat → Reply)
    (cb : Nat × Bool → Except String Unit) (m : Nat) (t : ℚ)
    (res : ConvergeResult)
    (h : converge q rA rB cb m t = Except.ok res) (hc : res.converged = true) :
    (∀ e ∈ res.callbackEvents, e.2 = false) ∧
    (∀ e ∈ res.callbackEvents, e.1 < res.iterations) ∧
    (∀ e ∈ res.callbackEvents, e.1 ≠ res.iterations) := by
  rw [converge] at h
  by_cases h1 : (jsTrim q).length = 0
  · rw [if_pos h1] at h; exact absurd h (by simp)
  · rw [if_neg h1] at h
    by_cases h2 : m < 1
    · rw [if_pos h2] at h; exact absurd h (by simp)
    · rw [if_neg h2] at h
      by_cases h3 : t < 0 ∨ 2 < t
      · rw [if_pos h3] at h; exact absurd h (by simp)
      · rw [if_neg h3] at h
        have hall := convergeAux_callback_events rA rB cb m m 0 none none [] []
          res h hc (by intro e he; simp at he)
        exact ⟨fun e he => (hall e he).1, fun e he => (hall e he).2,
          fun e he => by have := (hall e he).2; omega⟩

/-- The Party-A replies for the C10 witness run: iteration 1 does not
converge, iteration 2 does. -/
def w10A : Nat → Reply := fun i =>
  if i = 0 then ⟨"a1", true, [], 50⟩ else ⟨"a2", false, [], 90⟩

/-- The Party-B replies for the C10 witness run: never converge. -/
def w10B : Nat → Reply := fun _ => ⟨"b1", true, ["gap"], 50⟩

/-- The result of the C10 witness run: converges in iteration 2 with one
callback event, from iteration 1. -/
def w10Res : ConvergeResult :=
  { converged := true, iterations := 2,
    finalResponse := ⟨"a2", false, [], 90⟩,
    conversation :=
      [{ iteration := 1, agent := Party.A, reply := ⟨"a1", true, [], 50⟩ },
       { iteration := 1, agent := Party.B, reply := ⟨"b1", true, ["gap"], 50⟩ },
       { iteration := 2, agent := Party.A, reply := ⟨"a2", false, [], 90⟩ }],
    convergenceScore := 100, callbackEvents := [(1, false)] }

/-- Witness for `converge_callback_only_unconverged`: in the concrete run
`w10Res` the single callback event is from iteration 1, before the
converging iteration 2. -/
theorem converge_callback_only_unconverged_witness :
    ((1 : Nat), false).2 = false ∧ ((1 : Nat), false).1 < 2 := by
  have hall := converge_callback_only_unconverged "q" w10A w10B
    (fun _ => Except.ok ()) 2 0 w10Res rfl rfl
  have hmem : ((1 : Nat), false) ∈ w10Res.callbackEvents := by decide
  exact ⟨hall.1 (1, false) hmem, hall.2.1 (1, false) hmem⟩

/-- C5 counterexample: a callback that throws is not caught — its exception
is exactly what the `converge` call produces, so it propagates to the
caller and the loop does not continue (the invocation at src/index.js:360
has no surrounding try/catch). -/
theorem converge_callback_exception_counterexample :
    converge "q" (fun _ => ⟨"a", true, [], 50⟩) (fun _ => ⟨"b", true, [], 50⟩)
        (fun _ => Except.error "callback failure") 2 0 =
      Except.error "callback failure" := rfl

/-- C5 (amended): if the iteration-1 reply of neither party converges and the
callback throws on its first invocation, the exception propagates out of
`converge` (the whole run fails with it); it is not caught, logged or
swallowed, and no later iteration runs. -/
theorem converge_callback_exception_propagates (q : String)
    (rA rB : Nat → Reply) (cb : Nat × Bool → Except String Unit)
    (m : Nat) (t : ℚ) (msg : String)
    (hq : (jsTrim q).length ≠ 0) (hm : 1 ≤ m) (ht : 0 ≤ t ∧ t ≤ 2)
    (hA : hasConverged (rA 0) = false) (hB : hasConverged (rB 0) = false)
    (hcb : cb (1, false) = Except.error msg) :
    converge q rA rB cb m t = Except.error msg := by
  obtain ⟨m', rfl⟩ : ∃ m', m = m' + 1 := ⟨m - 1, by omega⟩
  have hts : ¬(t < 0 ∨ 2 < t) := by push_neg; exact ⟨ht.1, ht.2⟩
  rw [converge, if_neg hq, if_neg (by omega), if_neg hts]
  simp [convergeAux, hA, hB, hcb]

/-- Witness for `converge_callback_exception_propagates`: a concrete
three-iteration session dies on the first callback throw. -/
theorem converge_callback_exception_propagates_witness :
    converge "w" (fun _ => ⟨"a", true, ["g"], 10⟩)
        (fun _ => ⟨"b", true, ["g"], 10⟩) (fun _ => Except.error "boom") 3 1 =
      Except.error "boom" :=
  converge_callback_exception_propagates "w" (fun _ => ⟨"a", true, ["g"], 10⟩)
    (fun _ => ⟨"b", true, ["g"], 10⟩) (fun _ => Except.error "boom") 3 1 "boom"
    (by decide) (by omega) (by norm_num) rfl rfl rfl
